import Mathlib

/-!
Shallow embedding of `obstacle/multigrid/multigrid.py` (geometric multigrid
and the projected full-approximation scheme for linear complementarity
problems), together with theorems settling the frozen claims about it.

Modelling conventions, used throughout:

* numpy vectors are `List ℚ`, numpy sparse matrices are `List (List ℚ)`
  (row-major, exact rational arithmetic in place of IEEE doubles);
* in-place mutation of an array argument is modelled by returning the new
  value; where object identity (aliasing) matters it is modelled explicitly;
* the Euclidean norm `np.linalg.norm(v)` is irrational in general, so every
  comparison `x / ‖v‖₂ > t` of nonnegative values is modelled by the
  algebraically equivalent comparison of squares `x^2 > t^2 * ‖v‖₂²`
  (for `‖v‖₂ > 0`; the `‖v‖₂ = 0` case is modelled separately following
  IEEE semantics: `x / 0` is `+∞ > t` when `x > 0` and NaN, hence a false
  comparison, when `x = 0`);
* the infinity norm `np.linalg.norm(v, np.inf)` is rational and modelled
  directly;
* `while` loops are modelled with an explicit fuel argument; each loop of
  the source either has an iteration-count bound (supplied as the fuel) or
  the surrounding theorems quantify over all fuels.
-/

abbrev Vec := List ℚ

abbrev Mat := List (List ℚ)

/-- Dot product of two rational vectors. -/
def dot (a b : Vec) : ℚ := (List.zipWith (· * ·) a b).sum

/-- Matrix–vector product, modelling `A.dot(v)`. -/
def matVec (A : Mat) (v : Vec) : Vec := A.map (fun row => dot row v)

/-- Elementwise vector sum. -/
def vecAdd (a b : Vec) : Vec := List.zipWith (· + ·) a b

/-- Elementwise vector difference. -/
def vecSub (a b : Vec) : Vec := List.zipWith (· - ·) a b

/-- Column `j` of a matrix. -/
def getCol (B : Mat) (j : ℕ) : Vec := B.map (fun r => r.getD j 0)

/-- Matrix–matrix product, modelling `A.dot(B)`. -/
def matMul (A B : Mat) : Mat :=
  A.map (fun row => (List.range (B.headD []).length).map (fun j => dot row (getCol B j)))

/-- Elementwise matrix sum. -/
def matAdd (A B : Mat) : Mat := List.zipWith (fun r s => List.zipWith (· + ·) r s) A B

/-- Diagonal matrix with the given diagonal, modelling `scipy.sparse.diags(v, 0)`. -/
def diagMat (v : Vec) : Mat :=
  (List.range v.length).map (fun i =>
    (List.range v.length).map (fun j => if i = j then v.getD i 0 else 0))

/-- Infinity norm `np.linalg.norm(v, np.inf)`. -/
def infNorm (v : Vec) : ℚ := v.foldr (fun x m => max |x| m) 0

/-- Squared Euclidean norm: `np.linalg.norm(v) ** 2`, kept squared to stay rational. -/
def norm2sq (v : Vec) : ℚ := (v.map (fun x => x ^ 2)).sum

/-- Zero vector of the same length, modelling `np.zeros_like(v)`. -/
def zerosLike (v : Vec) : Vec := v.map (fun _ => 0)

/-- Set the entries at the listed indices to `0`, modelling `v[idxs] = 0.`. -/
def zeroAtIndices (v : Vec) (idxs : List ℕ) : Vec :=
  v.enum.map (fun p => if p.1 ∈ idxs then 0 else p.2)

/-- Overwrite the entries at the listed indices with those of `src`,
modelling `v[idxs] = src[idxs]`. -/
def injectAtIndices (v src : Vec) (idxs : List ℕ) : Vec :=
  v.enum.map (fun p => if p.1 ∈ idxs then src.getD p.1 0 else p.2)

/-- Vector of length `n` that is `1` at the listed indices and `0` elsewhere,
modelling `vec = np.zeros(n); vec[idxs] = 1`. -/
def indicatorVec (n : ℕ) (idxs : List ℕ) : Vec :=
  (List.range n).map (fun i => if i ∈ idxs then 1 else 0)

/-- Clamp negative entries to zero, modelling `u[u < 0.0] = 0.0`. -/
def clampNeg (v : Vec) : Vec := v.map (fun x => if x < 0 then 0 else x)

/-- The numerical threshold `1e-16` of the source. -/
def numEps : ℚ := 1 / 10 ^ 16

/-- A smoother, per the source's contract `(A, u, b, **kwargs)`: it receives
the operator, the current iterate and the right-hand side and produces the
relaxed iterate (the source mutates `u` in place; we return the new value). -/
abbrev Smoother := Mat → Vec → Vec → Vec

/-- Iterate a smoother `n` times, modelling
`for i in range(n): smoother(A, u, b)`. -/
def iterSmooth (s : Smoother) (n : ℕ) (A : Mat) (u b : Vec) : Vec :=
  match n with
  | 0 => u
  | n + 1 => iterSmooth s n A (s A u b) b

/-- Merit function for the LCP, `compute_Fomega` (multigrid.py lines 202-206):
`Fomega = np.minimum(F, 0.0)`, then `Fomega[x > 1e-16] = F[x > 1e-16]`.
Elementwise: the entry is `F i` where `x i > 1e-16` and `min (F i) 0` elsewhere. -/
def compute_Fomega (x F : Vec) : Vec :=
  List.zipWith (fun xi Fi => if numEps < xi then Fi else min Fi 0) x F

/-- Active set, `linear_pfas_solver.active_set` (multigrid.py line 359-360):
`np.arange(len(r))[(u < 1e-16) & (r > 0.0)]`.  The source wraps the result in
a Python `set`; the canonical sorted list below has the same membership, and
two such lists are equal exactly when the sets are. -/
def active_set (u r : Vec) : List ℕ :=
  (List.range r.length).filter (fun i => decide (u.getD i 0 < numEps) && decide ((0:ℚ) < r.getD i 0))

/-- One level of the multigrid hierarchy (`level` class of multigrid.py),
restricted to the fields the solvers read: grid sizes, operator `A`,
restriction `R`, prolongation `P` and the boundary index list. -/
structure Level where
  mx : ℕ
  my : ℕ
  A : Mat
  R : Mat
  P : Mat
  bndry_pts : List ℕ
deriving Repr, DecidableEq, Inhabited

/-- Helper lemma: reading a `zipWith` at an in-bounds index applies the
function to the two entries there. -/
theorem getD_zipWith (f : ℚ → ℚ → ℚ) :
    ∀ (u F : List ℚ) (i : ℕ), i < u.length → i < F.length →
      (List.zipWith f u F).getD i 0 = f (u.getD i 0) (F.getD i 0) := by
  intro u
  induction u with
  | nil => intro F i h _; simp at h
  | cons a u ih =>
    intro F i h1 h2
    cases F with
    | nil => simp at h2
    | cons c F =>
      cases i with
      | zero => simp [List.zipWith]
      | succ i =>
        simpa [List.zipWith] using ih F i (by simpa using h1) (by simpa using h2)

/-- Claim C8: for equal-length vectors `(u, F)`, `compute_Fomega u F` has
`i`-th entry `F i` whenever `u i` exceeds `1e-16` and `min (F i) 0`
otherwise; being a pure function of its arguments, identical inputs yield
identical outputs. -/
theorem compute_Fomega_entrywise
    (u F : Vec) (hlen : u.length = F.length) (i : ℕ) (hi : i < u.length) :
    (compute_Fomega u F).getD i 0 =
      (if numEps < u.getD i 0 then F.getD i 0 else min (F.getD i 0) 0) ∧
    ∀ v G : Vec, v = u → G = F → compute_Fomega v G = compute_Fomega u F := by
  refine ⟨?_, by intro v G hv hG; rw [hv, hG]⟩
  exact getD_zipWith _ u F i hi (hlen ▸ hi)

/-- Witness for C8: the entrywise description evaluated on the concrete pair
`u = [1, 0]`, `F = [-2, 3]` at index `0`. -/
theorem compute_Fomega_entrywise_witness :
    ([(1:ℚ), 0].length = [(-2:ℚ), 3].length ∧ 0 < [(1:ℚ), 0].length) ∧
      (compute_Fomega [(1:ℚ), 0] [(-2:ℚ), 3]).getD 0 0 =
        (if numEps < ([(1:ℚ), 0]).getD 0 0 then ([(-2:ℚ), 3]).getD 0 0
         else min (([(-2:ℚ), 3]).getD 0 0) 0) :=
  ⟨⟨by decide, by decide⟩,
    (compute_Fomega_entrywise [(1:ℚ), 0] [(-2:ℚ), 3] (by decide) 0 (by decide)).1⟩

/-- State stored by `multigrid_solver.__init__` (multigrid.py lines 44-53).
Only the fields below are set there; no hierarchy validation of any kind is
performed by the source constructor. -/
structure MGSolverState where
  levels : List Level
  coarse_mx : ℕ
  coarse_my : ℕ
  level : Level
  residuals : List ℚ
deriving Repr, DecidableEq

/-- `multigrid_solver.__init__`: stores the arguments and sets
`self.level = self.levels[0]`; the only possible failure is the `levels[0]`
access on an empty sequence (Python `IndexError`).  No check of level sizes,
transfer operators or hierarchy depth appears in the source. -/
def multigrid_solver_init (levels : List Level) (cmx cmy : ℕ) :
    Except String MGSolverState :=
  match levels with
  | [] => .error "IndexError"
  | l0 :: _ => .ok ⟨levels, cmx, cmy, l0, []⟩

/-- State stored by `linear_pfas_solver.__init__` (multigrid.py lines
249-263); again no validation occurs, the only possible failure being the
`levels[0]` access. -/
structure PFASSolverState where
  levels : List Level
  coarse_mx : ℕ
  coarse_my : ℕ
  level : Level
  mu : ℚ
  residuals : List ℚ
  bndry_pts : List ℕ
deriving Repr, DecidableEq

/-- `linear_pfas_solver.__init__`: stores the arguments, `mu = .15`,
`self.level = self.levels[0]`, empty residual and boundary lists. -/
def linear_pfas_solver_init (levels : List Level) (cmx cmy : ℕ) :
    Except String PFASSolverState :=
  match levels with
  | [] => .error "IndexError"
  | l0 :: _ => .ok ⟨levels, cmx, cmy, l0, 15/100, [], []⟩

/-- Events recorded while running `multigrid_solver.lvl_solve`: a recursive
call `lvl_solve(lvl, ..., cycle)` or an invocation `coarse_solver(A, rhs)`
of the exact coarse solver. -/
inductive MGEvent where
  | call (lvl : ℕ) (cycle : String)
  | coarse (A : Mat) (rhs : Vec)
deriving Repr, DecidableEq

/-- The recursive-call events of a trace aimed at a given level. -/
def callsAt (k : ℕ) (tr : List MGEvent) : List MGEvent :=
  tr.filter (fun e => match e with
    | .call l _ => decide (l = k)
    | .coarse _ _ => false)

/-- `multigrid_solver.lvl_solve` (multigrid.py lines 55-98), with an event
trace of the recursive calls and coarse solves it performs.  Faithful to the
source: pre-smooth `smoothing_iters` times; `coarse_b = R·(b − A·u)`; above
the second-to-last level recurse on a zero coarse guess per the cycle-type
table (recursive calls leave `smoothing_iters` at its default `1`, as the
source does); at the second-to-last level call `coarse_solver` on
`levels[-1].A` and `coarse_b`; then `u += P·coarse_u` and post-smooth.  The
`fuel` argument bounds the recursion depth (the source's recursion is bounded
by the hierarchy length; any `fuel ≥ levels.length` is ample). -/
def mg_lvl_solve (levels : List Level) (smoother : Smoother)
    (coarse_solver : Mat → Vec → Vec) (fuel : ℕ) (lvl : ℕ) (u b : Vec)
    (cycle : String) (si : ℕ) : Vec × List MGEvent :=
  match fuel with
  | 0 => (u, [])
  | fuel + 1 =>
    let A := (levels.getD lvl default).A
    let R := (levels.getD lvl default).R
    let u1 := iterSmooth smoother si A u b
    let r := vecSub b (matVec A u1)
    let coarse_b := matVec R r
    let cres : Vec × List MGEvent :=
      if lvl < levels.length - 2 then
        let coarse_u := zerosLike coarse_b
        if cycle = "W" then
          let c1 := mg_lvl_solve levels smoother coarse_solver fuel (lvl+1) coarse_u coarse_b cycle 1
          let c2 := mg_lvl_solve levels smoother coarse_solver fuel (lvl+1) c1.1 coarse_b cycle 1
          (c2.1, .call (lvl+1) cycle :: c1.2 ++ .call (lvl+1) cycle :: c2.2)
        else if cycle = "V" then
          let c1 := mg_lvl_solve levels smoother coarse_solver fuel (lvl+1) coarse_u coarse_b cycle 1
          (c1.1, .call (lvl+1) cycle :: c1.2)
        else if cycle = "FV" then
          let c1 := mg_lvl_solve levels smoother coarse_solver fuel (lvl+1) coarse_u coarse_b cycle 1
          let c2 := mg_lvl_solve levels smoother coarse_solver fuel (lvl+1) c1.1 coarse_b "V" 1
          (c2.1, .call (lvl+1) cycle :: c1.2 ++ .call (lvl+1) "V" :: c2.2)
        else if cycle = "FW" then
          let c1 := mg_lvl_solve levels smoother coarse_solver fuel (lvl+1) coarse_u coarse_b cycle 1
          let c2 := mg_lvl_solve levels smoother coarse_solver fuel (lvl+1) c1.1 coarse_b "W" 1
          (c2.1, .call (lvl+1) cycle :: c1.2 ++ .call (lvl+1) "W" :: c2.2)
        else
          (coarse_u, [])
      else
        let cu := coarse_solver (levels.getLastD default).A coarse_b
        (cu, [.coarse (levels.getLastD default).A coarse_b])
    let P := (levels.getD (lvl+1) default).P
    let u2 := vecAdd u1 (matVec P cres.1)
    (iterSmooth smoother si A u2 b, cres.2)

/-- An event is aimed strictly deeper than level `k` (coarse-solver events
carry no level and count vacuously). -/
def evtDeeper (k : ℕ) (e : MGEvent) : Prop :=
  match e with
  | .call l _ => k ≤ l
  | .coarse _ _ => True

/-- Aim bounds on events weaken monotonically. -/
theorem evtDeeper_mono {j k : ℕ} (h : j ≤ k) (e : MGEvent) :
    evtDeeper k e → evtDeeper j e := by
  cases e with
  | call l c => intro hk; exact le_trans h hk
  | coarse A rhs => intro _; trivial

/-- Every event in the trace of `mg_lvl_solve` at level `lvl` is aimed at
level `lvl + 1` or deeper. -/
theorem mg_lvl_solve_calls_deeper
    (levels : List Level) (sm : Smoother) (cs : Mat → Vec → Vec) :
    ∀ (fuel lvl : ℕ) (u b : Vec) (cycle : String) (si : ℕ) (e : MGEvent),
      e ∈ (mg_lvl_solve levels sm cs fuel lvl u b cycle si).2 →
      evtDeeper (lvl + 1) e := by
  intro fuel
  induction fuel with
  | zero => intro lvl u b cycle si e he; simp [mg_lvl_solve] at he
  | succ fuel ih =>
    intro lvl u b cycle si e he
    simp only [mg_lvl_solve] at he
    split at he
    · split at he
      · dsimp only at he
        simp only [List.mem_cons, List.mem_append] at he
        rcases he with (h | h) | (h | h)
        · subst h; exact Nat.le_refl _
        · exact evtDeeper_mono (by omega) e (ih _ _ _ _ _ e h)
        · subst h; exact Nat.le_refl _
        · exact evtDeeper_mono (by omega) e (ih _ _ _ _ _ e h)
      · split at he
        · dsimp only at he
          simp only [List.mem_cons] at he
          rcases he with h | h
          · subst h; exact Nat.le_refl _
          · exact evtDeeper_mono (by omega) e (ih _ _ _ _ _ e h)
        · split at he
          · dsimp only at he
            simp only [List.mem_cons, List.mem_append] at he
            rcases he with (h | h) | (h | h)
            · subst h; exact Nat.le_refl _
            · exact evtDeeper_mono (by omega) e (ih _ _ _ _ _ e h)
            · subst h; exact Nat.le_refl _
            · exact evtDeeper_mono (by omega) e (ih _ _ _ _ _ e h)
          · split at he
            · dsimp only at he
              simp only [List.mem_cons, List.mem_append] at he
              rcases he with (h | h) | (h | h)
              · subst h; exact Nat.le_refl _
              · exact evtDeeper_mono (by omega) e (ih _ _ _ _ _ e h)
              · subst h; exact Nat.le_refl _
              · exact evtDeeper_mono (by omega) e (ih _ _ _ _ _ e h)
            · dsimp only at he
              simp at he
    · dsimp only at he
      simp only [List.mem_singleton] at he
      subst he; trivial

/-- A trace whose events are all aimed strictly deeper than `k` contributes
no calls at level `k`. -/
theorem callsAt_eq_nil_of_deeper (k : ℕ) (tr : List MGEvent)
    (h : ∀ e ∈ tr, evtDeeper (k + 1) e) : callsAt k tr = [] := by
  rw [callsAt, List.filter_eq_nil_iff]
  intro e he
  have hd := h e he
  cases e with
  | call l c =>
    have : k + 1 ≤ l := hd
    simp only [decide_eq_true_eq]
    omega
  | coarse A rhs => simp

/-- Filtering calls distributes over trace concatenation. -/
theorem callsAt_append (k : ℕ) (t1 t2 : List MGEvent) :
    callsAt k (t1 ++ t2) = callsAt k t1 ++ callsAt k t2 := by
  simp [callsAt, List.filter_append]

/-- A call event aimed exactly at level `k` survives the filter. -/
theorem callsAt_cons_self (k : ℕ) (c : String) (t : List MGEvent) :
    callsAt k (.call k c :: t) = .call k c :: callsAt k t := by
  simp [callsAt, List.filter]

/-- Claim C4: strictly above the second-to-last level, `mg_lvl_solve` makes
exactly one recursive call for cycle `V`, two recursive calls of the same
type for `W`, an `FV` call followed by a `V` call for `FV`, and an `FW` call
followed by a `W` call for `FW`; at the second-to-last level it instead
invokes the exact coarse solver on the coarsest level's operator with the
restricted right-hand side `coarse_b = R·(b − A·u)` (with `u` the
pre-smoothed iterate). -/
theorem mg_lvl_solve_recursion_structure
    (levels : List Level) (sm : Smoother) (cs : Mat → Vec → Vec)
    (fuel lvl : ℕ) (u b : Vec) (cycle : String) (si : ℕ) :
    (lvl < levels.length - 2 →
      callsAt (lvl + 1) (mg_lvl_solve levels sm cs (fuel + 1) lvl u b cycle si).2 =
        (if cycle = "W" then [.call (lvl+1) "W", .call (lvl+1) "W"]
         else if cycle = "V" then [.call (lvl+1) "V"]
         else if cycle = "FV" then [.call (lvl+1) "FV", .call (lvl+1) "V"]
         else if cycle = "FW" then [.call (lvl+1) "FW", .call (lvl+1) "W"]
         else [])) ∧
    (lvl = levels.length - 2 →
      (mg_lvl_solve levels sm cs (fuel + 1) lvl u b cycle si).2 =
        [.coarse (levels.getLastD default).A
          (matVec (levels.getD lvl default).R
            (vecSub b (matVec (levels.getD lvl default).A
              (iterSmooth sm si (levels.getD lvl default).A u b))))]) := by
  have hdeep : ∀ (u' b' : Vec) (c' : String),
      callsAt (lvl + 1) (mg_lvl_solve levels sm cs fuel (lvl+1) u' b' c' 1).2 = [] := by
    intro u' b' c'
    exact callsAt_eq_nil_of_deeper _ _
      (fun e he => mg_lvl_solve_calls_deeper levels sm cs fuel (lvl+1) u' b' c' 1 e he)
  constructor
  · intro h
    simp only [mg_lvl_solve]
    rw [if_pos h]
    by_cases hW : cycle = "W"
    · subst hW
      simp [callsAt_append, callsAt_cons_self, hdeep]
    · by_cases hV : cycle = "V"
      · subst hV
        simp [hW, callsAt_append, callsAt_cons_self, hdeep]
      · by_cases hFV : cycle = "FV"
        · subst hFV
          simp [hW, hV, callsAt_append, callsAt_cons_self, hdeep]
        · by_cases hFW : cycle = "FW"
          · subst hFW
            simp [hW, hV, hFV, callsAt_append, callsAt_cons_self, hdeep]
          · simp [hW, hV, hFV, hFW, callsAt]
  · intro h
    have h' : ¬ lvl < levels.length - 2 := by omega
    simp only [mg_lvl_solve]
    rw [if_neg h']

/-- Identity smoother: a degenerate but contract-conforming relaxation used
in concrete witnesses (the source accepts any callable of this shape). -/
def idSmoother : Smoother := fun _ u _ => u

/-- Stand-in exact coarse solver used in concrete witnesses. -/
def echoSolver : Mat → Vec → Vec := fun _ cb => cb

/-- A concrete 1-unknown level used in witnesses. -/
def lvlUnit : Level := ⟨0, 0, [[2]], [[1]], [[1]], []⟩

/-- Witness for C4: on a concrete three-level hierarchy, the finest level of
an `FV` cycle makes exactly the recursive calls `FV` then `V`. -/
theorem mg_lvl_solve_recursion_structure_witness :
    (0 < [lvlUnit, lvlUnit, lvlUnit].length - 2) ∧
      callsAt 1 (mg_lvl_solve [lvlUnit, lvlUnit, lvlUnit] idSmoother echoSolver 3 0
          [1] [1] "FV" 1).2 =
        [.call 1 "FV", .call 1 "V"] :=
  ⟨by decide,
    by
      have h := (mg_lvl_solve_recursion_structure [lvlUnit, lvlUnit, lvlUnit]
        idSmoother echoSolver 2 0 [1] [1] "FV" 1).1 (by decide)
      simpa using h⟩

/-- Result of `multigrid_solver.solve` (non-fmg branch): final iterate, the
residual history, the number of cycle iterations run, and whether the
convergence test `residuals[-1] / np.linalg.norm(b) > tol` was ever
evaluated with a zero denominator (IEEE division by zero). -/
structure MGResult where
  u : Vec
  residuals : List ℚ
  iters : ℕ
  divByZero : Bool
deriving Repr, DecidableEq

/-- The while-condition of `multigrid_solver.solve` (multigrid.py line 124):
`self.residuals[-1] / normb > tol and z < maxiters`, where
`normb = np.linalg.norm(b)`.  Comparisons of nonnegative values against the
irrational `normb` are modelled through squares: for `normb ≠ 0` and a
tolerance `t ≥ 0` the test `r / normb > t` is equivalent to
`r^2 > t^2 * normb^2`, and `guardSq` below is `t^2 * normb^2`.  For
`normb = 0` the source divides by zero; under IEEE semantics `r / 0` is
`+∞ > t` (true) when `r > 0` and NaN (every comparison false) when `r = 0`. -/
def mgGuard (nbSq lastRes guardSq : ℚ) : Bool :=
  if nbSq = 0 then decide (0 < lastRes) else decide (guardSq < lastRes ^ 2)

/-- The cycling loop of `multigrid_solver.solve` (multigrid.py lines
124-128): while the guard holds, run one `lvl_solve` cycle from the finest
level and append the new infinity-norm residual.  The fuel equals
`maxiters`, which bounds the iteration count of the source loop. -/
def mgSolveGo (levels : List Level) (sm : Smoother) (cs : Mat → Vec → Vec)
    (b : Vec) (cycle : String) (guardSq : ℚ) (maxiters si : ℕ) :
    ℕ → Vec → List ℚ → ℕ → Vec × List ℚ × ℕ
  | 0, u, res, z => (u, res, z)
  | fuel + 1, u, res, z =>
    if mgGuard (norm2sq b) (res.getLastD 0) guardSq && decide (z < maxiters) then
      let u' := (mg_lvl_solve levels sm cs levels.length 0 u b cycle si).1
      let res' := res ++ [infNorm (vecSub b (matVec (levels.headD default).A u'))]
      mgSolveGo levels sm cs b cycle guardSq maxiters si fuel u' res' (z + 1)
    else (u, res, z)

/-- Core of `multigrid_solver.solve` for non-fmg cycles (multigrid.py lines
113-132), parameterised by the squared effective tolerance `guardSq`
(see `mgGuard`): `u = np.array(u0)` (zero if absent), record the initial
infinity-norm residual, loop, and report whether the loop guard divided by
`normb = 0`. -/
def mgSolveCore (levels : List Level) (sm : Smoother) (cs : Mat → Vec → Vec)
    (b : Vec) (u0 : Option Vec) (cycle : String) (guardSq : ℚ)
    (maxiters si : ℕ) : MGResult :=
  let u := match u0 with
    | none => zerosLike b
    | some v => v
  let res0 := infNorm (vecSub b (matVec (levels.headD default).A u))
  let t := mgSolveGo levels sm cs b cycle guardSq maxiters si maxiters u [res0] 0
  ⟨t.1, t.2.1, t.2.2, decide (norm2sq b = 0)⟩

/-- `multigrid_solver.solve` (non-fmg), with the caller's tolerance `tol`:
the guard `r / ‖b‖₂ > tol` is `r^2 > tol^2·‖b‖₂²` for `‖b‖₂ ≠ 0`. -/
def mg_solve (levels : List Level) (sm : Smoother) (cs : Mat → Vec → Vec)
    (b : Vec) (u0 : Option Vec) (cycle : String) (tol : ℚ)
    (maxiters si : ℕ) : MGResult :=
  mgSolveCore levels sm cs b u0 cycle (tol ^ 2 * norm2sq b) maxiters si

/-- A concrete 1-unknown level whose operator is the identity. -/
def lvlId : Level := ⟨0, 0, [[1]], [[1]], [[1]], []⟩

/-- Claim C5 (code bug): on the zero right-hand side `b = [0]` with the
nonzero initial iterate `u0 = [1]`, `multigrid_solver.solve` evaluates its
loop guard `residuals[-1] / np.linalg.norm(b)` with `normb = 0` — a division
by zero — and, the quotient being `+∞` under IEEE semantics, runs a cycle
iteration and returns an iterate different from the initial one, instead of
treating the problem as already converged. -/
theorem mg_solve_zero_rhs_divides_by_zero :
    (mg_solve [lvlId, lvlId] idSmoother echoSolver [0] (some [1]) "V"
        (1 / 10 ^ 12) 2 1).divByZero = true ∧
    (mg_solve [lvlId, lvlId] idSmoother echoSolver [0] (some [1]) "V"
        (1 / 10 ^ 12) 2 1).iters = 1 ∧
    (mg_solve [lvlId, lvlId] idSmoother echoSolver [0] (some [1]) "V"
        (1 / 10 ^ 12) 2 1).u ≠ [1] := by
  refine ⟨?_, ?_, ?_⟩ <;>
    norm_num [mg_solve, mgSolveCore, mgSolveGo, mgGuard, mg_lvl_solve, iterSmooth,
      idSmoother, echoSolver, lvlId, vecSub, vecAdd, matVec, dot, infNorm,
      norm2sq, zerosLike, List.getLastD, List.getD, List.headD]

/-- Counterexample for C9: a hierarchy with a single level (fewer than 2
levels) is accepted by both constructors — no exception is raised at
construction time, contradicting the fail-fast claim. -/
theorem solver_init_accepts_single_level :
    (multigrid_solver_init [lvlUnit] 0 0).isOk = true ∧
    (linear_pfas_solver_init [lvlUnit] 0 0).isOk = true := by
  constructor <;> rfl

/-- Claim C9 (amended): the constructors perform no hierarchy validation at
all; construction succeeds for every nonempty level sequence (whatever its
sizes or transfer operators) and fails only for an empty sequence, through
the `levels[0]` access.  Malformed hierarchies are therefore not rejected
before iteration begins. -/
theorem solver_init_ok_iff_nonempty (levels : List Level) (cmx cmy : ℕ) :
    ((multigrid_solver_init levels cmx cmy).isOk = !levels.isEmpty) ∧
    ((linear_pfas_solver_init levels cmx cmy).isOk = !levels.isEmpty) := by
  cases levels <;> constructor <;> rfl

/-- Coarsest-level solve of `linear_pfas_solver.lvl_solve` (multigrid.py
lines 306-310): iterate the smoother on the coarse problem until the scaled
increment `du = (coarse_mx + 1) * np.linalg.norm(uold - coarse_u)` drops to
`1e-12` or below; the comparison of the irrational `du` with `1e-12` is
modelled through squares.  The source loop runs the smoother at least once
(`du` starts at `1.0`); `fuel` bounds the iterations. -/
def coarseSmoothLoop (sm : Smoother) (coarse_mx : ℕ) (A : Mat) (b : Vec) :
    ℕ → Vec → Vec
  | 0, u => u
  | fuel + 1, u =>
    let u' := sm A u b
    if ((coarse_mx : ℚ) + 1) ^ 2 * norm2sq (vecSub u u') > (1 / 10 ^ 12) ^ 2 then
      coarseSmoothLoop sm coarse_mx A b fuel u'
    else u'

/-- `linear_pfas_solver.lvl_solve` (multigrid.py lines 265-320).  Faithful
to the source: pre-smooth `smoothing_iters` times; `coarse_u = R·u`;
`coarse_b = R·(b - A·u) + A_coarse·coarse_u`; above the second-to-last level
recurse per the cycle table (the `fmgV` variant restricts the original `b`
for its first recursion; recursive calls leave `smoothing_iters` at its
default `1`, as the source does); at the second-to-last level run the
coarse smoothing loop; then `u += P·(coarse_u - R·u)` — where the source
recomputes `R.dot(u)` on the unchanged fine iterate — and post-smooth. -/
def pfas_lvl_solve (levels : List Level) (sm : Smoother)
    (coarse_mx coarseFuel : ℕ) : ℕ → ℕ → Vec → Vec → String → ℕ → Vec
  | 0, _, u, _, _, _ => u
  | fuel + 1, lvl, u, b, cycle, si =>
    let A := (levels.getD lvl default).A
    let u1 := iterSmooth sm si A u b
    let R := (levels.getD lvl default).R
    let coarse_u := matVec R u1
    let coarse_b0 := matVec R (vecSub b (matVec A u1))
    let coarse_A := (levels.getD (lvl + 1) default).A
    let coarse_b := vecAdd coarse_b0 (matVec coarse_A coarse_u)
    let cu :=
      if lvl < levels.length - 2 then
        if cycle = "W" then
          let c1 := pfas_lvl_solve levels sm coarse_mx coarseFuel fuel (lvl+1) coarse_u coarse_b "W" 1
          pfas_lvl_solve levels sm coarse_mx coarseFuel fuel (lvl+1) c1 coarse_b "W" 1
        else if cycle = "V" then
          pfas_lvl_solve levels sm coarse_mx coarseFuel fuel (lvl+1) coarse_u coarse_b "V" 1
        else if cycle = "FV" then
          let c1 := pfas_lvl_solve levels sm coarse_mx coarseFuel fuel (lvl+1) coarse_u coarse_b "FV" 1
          pfas_lvl_solve levels sm coarse_mx coarseFuel fuel (lvl+1) c1 coarse_b "V" 1
        else if cycle = "FW" then
          let c1 := pfas_lvl_solve levels sm coarse_mx coarseFuel fuel (lvl+1) coarse_u coarse_b "FW" 1
          pfas_lvl_solve levels sm coarse_mx coarseFuel fuel (lvl+1) c1 coarse_b "W" 1
        else if cycle = "fmgV" then
          let coarse_b2 := matVec R b
          let c1 := pfas_lvl_solve levels sm coarse_mx coarseFuel fuel (lvl+1) coarse_u coarse_b2 "fmgV" 1
          pfas_lvl_solve levels sm coarse_mx coarseFuel fuel (lvl+1) c1 coarse_b "V" 1
        else coarse_u
      else
        coarseSmoothLoop sm coarse_mx coarse_A coarse_b coarseFuel coarse_u
    let P := (levels.getD (lvl + 1) default).P
    let u2 := vecAdd u1 (matVec P (vecSub cu (matVec R u1)))
    iterSmooth sm si A u2 b

/-- The coarse visit of one recursive projected-cycle step, as a function of
the coarse problem `(coarse_u, coarse_b)` (plus the restricted original
right-hand side `coarse_b2 = R·b`, used only by the `fmgV` variant),
dispatching on the cycle type exactly as the source's branch block does. -/
def pfas_coarse_visit (levels : List Level) (sm : Smoother)
    (coarse_mx coarseFuel fuel lvl : ℕ) (cycle : String)
    (coarse_u coarse_b coarse_b2 : Vec) : Vec :=
  if cycle = "W" then
    let c1 := pfas_lvl_solve levels sm coarse_mx coarseFuel fuel (lvl+1) coarse_u coarse_b "W" 1
    pfas_lvl_solve levels sm coarse_mx coarseFuel fuel (lvl+1) c1 coarse_b "W" 1
  else if cycle = "V" then
    pfas_lvl_solve levels sm coarse_mx coarseFuel fuel (lvl+1) coarse_u coarse_b "V" 1
  else if cycle = "FV" then
    let c1 := pfas_lvl_solve levels sm coarse_mx coarseFuel fuel (lvl+1) coarse_u coarse_b "FV" 1
    pfas_lvl_solve levels sm coarse_mx coarseFuel fuel (lvl+1) c1 coarse_b "V" 1
  else if cycle = "FW" then
    let c1 := pfas_lvl_solve levels sm coarse_mx coarseFuel fuel (lvl+1) coarse_u coarse_b "FW" 1
    pfas_lvl_solve levels sm coarse_mx coarseFuel fuel (lvl+1) c1 coarse_b "W" 1
  else if cycle = "fmgV" then
    let c1 := pfas_lvl_solve levels sm coarse_mx coarseFuel fuel (lvl+1) coarse_u coarse_b2 "fmgV" 1
    pfas_lvl_solve levels sm coarse_mx coarseFuel fuel (lvl+1) c1 coarse_b "V" 1
  else coarse_u

/-- The claim's description of one recursive projected-cycle step, written
following the spec's words: after pre-smoothing, the coarse problem is
formed as `coarse_u = R·u` and `coarse_b = R·(b − A·u) + A_coarse·(R·u)`;
after the coarse visit the fine iterate is updated by prolongating only the
correction, `u += P·(coarse_u_new − R·u)`, where `R·u` is the restriction of
the fine iterate as it stood before the coarse visit; then post-smooth. -/
def pfas_step_spec_form (levels : List Level) (sm : Smoother)
    (coarse_mx coarseFuel fuel lvl : ℕ) (u b : Vec) (cycle : String)
    (si : ℕ) : Vec :=
  let A := (levels.getD lvl default).A
  let R := (levels.getD lvl default).R
  let u_pre := iterSmooth sm si A u b
  let coarse_u := matVec R u_pre
  let coarse_b := vecAdd (matVec R (vecSub b (matVec A u_pre)))
    (matVec (levels.getD (lvl + 1) default).A (matVec R u_pre))
  let coarse_u_new := pfas_coarse_visit levels sm coarse_mx coarseFuel fuel lvl
    cycle coarse_u coarse_b (matVec R b)
  let u_corr := vecAdd u_pre (matVec (levels.getD (lvl + 1) default).P
    (vecSub coarse_u_new (matVec R u_pre)))
  iterSmooth sm si A u_corr b

/-- Claim C3: in every recursive projected-cycle step (any cycle type,
strictly above the second-to-last level), `pfas_lvl_solve` forms the coarse
problem as `coarse_u = R·u`, `coarse_b = R·(b − A·u) + A_coarse·(R·u)` and
updates the fine iterate by prolongating only the correction
`u += P·(coarse_u_new − R·u)` with `R·u` taken at the pre-visit iterate —
i.e. one unfolding of the source equals the spec's description verbatim. -/
theorem pfas_lvl_solve_correction_form (levels : List Level) (sm : Smoother)
    (coarse_mx coarseFuel fuel lvl : ℕ) (u b : Vec) (cycle : String) (si : ℕ)
    (h : lvl < levels.length - 2) :
    pfas_lvl_solve levels sm coarse_mx coarseFuel (fuel + 1) lvl u b cycle si =
      pfas_step_spec_form levels sm coarse_mx coarseFuel fuel lvl u b cycle si := by
  simp only [pfas_lvl_solve, pfas_step_spec_form, pfas_coarse_visit]
  rw [if_pos h]

/-- Witness for C3: the equality of the source step and the spec-form step,
evaluated on a concrete three-level hierarchy with a `V` cycle. -/
theorem pfas_lvl_solve_correction_form_witness :
    (0 < [lvlUnit, lvlId, lvlId].length - 2) ∧
      pfas_lvl_solve [lvlUnit, lvlId, lvlId] idSmoother 0 3 3 0 [1] [2] "V" 1 =
        pfas_step_spec_form [lvlUnit, lvlId, lvlId] idSmoother 0 3 2 0 [1] [2] "V" 1 :=
  ⟨by decide,
    pfas_lvl_solve_correction_form [lvlUnit, lvlId, lvlId] idSmoother 0 3 2 0
      [1] [2] "V" 1 (by decide)⟩

/-- The `u0` argument of `linear_pfas_solver.solve`: `None`, a numeric
vector, or a named-strategy string. -/
inductive U0Input where
  | none
  | vec (v : Vec)
  | str (s : String)
deriving Repr, DecidableEq

/-- What the local name `u0` holds when control reaches
`u = np.array(u0)` (multigrid.py line 407), or the exception raised on the
way there. -/
inductive U0Resolved where
  | vec (v : Vec)
  | strLeft (s : String)
  | err (msg : String)
deriving Repr, DecidableEq

/-- The initial-guess dispatch of `linear_pfas_solver.solve` (multigrid.py
lines 368-405).  Faithful to the source:

* `None` or `"zero"`: `u0 = np.zeros_like(b)`, then boundary injection
  `u0[bndry] = b[bndry]` when boundary points exist (when none exist the
  source's "warning" is a bare string expression with no effect);
* a vector: passed through unchanged (`pass`);
* `"spsolve"`: `u0 = spsolve(self.level.A, b)`, the external direct solver
  being the parameter `spsolveFn`;
* `"gmg"`: the source immediately references `gs`, which is a *local*
  variable of `solve` (it is bound by the gs-importing statement
  `from obstacle.multigrid.GS ...` at line 475, inside the function body)
  and is unbound at this point, so Python raises `UnboundLocalError`;
* `"gs"`: `r0 = np.linalg.norm(b, np.inf)`; the loop `while r/r0 > tol`
  starts with `r = r0`, so its body runs exactly when `r0 ≠ 0` (otherwise
  the guard is NaN, hence false) and `1 > tol`; the first body statement
  `gs(self.level.A, u, b)` references the same unbound local `gs`, raising
  `UnboundLocalError`.  When the body never runs, the branch falls through
  without ever assigning `u0`, which therefore remains the string `"gs"`;
* any other string: zero-plus-boundary-injection when boundary points
  exist, else `u0 = b`. -/
def pfas_resolve_u0 (levels : List Level) (spsolveFn : Mat → Vec → Vec)
    (b : Vec) (tol : ℚ) (u0 : U0Input) : U0Resolved :=
  let bndry := (levels.headD default).bndry_pts
  let zeroInit : Vec :=
    if bndry.isEmpty then zerosLike b
    else injectAtIndices (zerosLike b) b bndry
  match u0 with
  | .none => .vec zeroInit
  | .vec v => .vec v
  | .str s =>
    if s = "zero" then .vec zeroInit
    else if s = "spsolve" then .vec (spsolveFn (levels.headD default).A b)
    else if s = "gmg" then .err "UnboundLocalError: gs"
    else if s = "gs" then
      if infNorm b ≠ 0 ∧ tol < 1 then .err "UnboundLocalError: gs"
      else .strLeft "gs"
    else
      if bndry.isEmpty then .vec b
      else .vec (injectAtIndices (zerosLike b) b bndry)

/-- The starting iterate of the projected-cycling outer loop (multigrid.py
lines 407-408): `u = np.array(u0)` followed by the clamp `u[u < 0.0] = 0.0`.
When `u0` is still a Python string at this point, `np.array(u0)` yields a
0-d string array on which the numeric pipeline is invalid (`TypeError`). -/
def pfas_start_iterate (levels : List Level) (spsolveFn : Mat → Vec → Vec)
    (b : Vec) (tol : ℚ) (u0 : U0Input) : Except String Vec :=
  match pfas_resolve_u0 levels spsolveFn b tol u0 with
  | .err m => .error m
  | .strLeft _ => .error "TypeError"
  | .vec v => .ok (clampNeg v)

/-- Counterexample for C6: the vector `u0 = [-1]` is not used as-is — the
clamp `u[u < 0.0] = 0.0` turns the starting iterate into `[0] ≠ [-1]`. -/
theorem pfas_vector_u0_not_used_as_is :
    pfas_start_iterate [lvlId, lvlId] echoSolver [0] (1 / 10 ^ 8)
        (U0Input.vec [-1]) = .ok [0] ∧ ([(0:ℚ)] ≠ [(-1:ℚ)]) := by
  constructor
  · norm_num [pfas_start_iterate, pfas_resolve_u0, clampNeg]
  · norm_num

/-- Claim C6 (amended): a vector `u0` is passed through the dispatch
unchanged, and the starting iterate is `u0` with its negative components
replaced by `0` (the componentwise maximum with `0`); in particular the
starting iterate equals `u0` exactly when every component of `u0` is
nonnegative. -/
theorem pfas_vector_u0_clamped (levels : List Level)
    (spsolveFn : Mat → Vec → Vec) (b : Vec) (tol : ℚ) (v : Vec) :
    pfas_start_iterate levels spsolveFn b tol (U0Input.vec v) =
      .ok (clampNeg v) ∧
    clampNeg v = v.map (fun x => max x 0) ∧
    ((∀ x ∈ v, 0 ≤ x) → clampNeg v = v) := by
  refine ⟨rfl, ?_, ?_⟩
  · refine List.map_congr_left ?_
    intro x _
    rcases le_or_lt 0 x with hx | hx
    · rw [if_neg (not_lt.mpr hx)]; exact (max_eq_left hx).symm
    · rw [if_pos hx]; exact (max_eq_right hx.le).symm
  · intro hall
    have hpt : ∀ x ∈ v, (if x < 0 then (0:ℚ) else x) = x := by
      intro x hx
      rw [if_neg (not_lt.mpr (hall x hx))]
    rw [clampNeg, List.map_congr_left hpt]
    simp

/-- Witness for C6 (amended): evaluated at the nonnegative vector `[1, 2]`,
for which the starting iterate is `u0` itself. -/
theorem pfas_vector_u0_clamped_witness :
    (∀ x ∈ [(1:ℚ), 2], 0 ≤ x) ∧ clampNeg [(1:ℚ), 2] = [1, 2] :=
  ⟨by norm_num,
    (pfas_vector_u0_clamped [lvlId, lvlId] echoSolver [0] 1 [1, 2]).2.2
      (by norm_num)⟩

/-- Claim C7 (code bug): with `u0 = 'gs'` the relaxation result never
becomes the starting iterate.  On a right-hand side with nonzero norm the
branch raises `UnboundLocalError` at its first `gs(...)` call (`gs` is a
local of `solve`, bound only by the import at line 475); on a zero-norm
right-hand side the loop is skipped, `u0` is never assigned, and the string
`'gs'` itself reaches `np.array(u0)`, poisoning the numeric pipeline.
Either way no relaxation vector is produced or used. -/
theorem pfas_gs_initial_guess_never_used :
    pfas_start_iterate [lvlId, lvlId] echoSolver [1] (1 / 10 ^ 8)
        (U0Input.str "gs") = .error "UnboundLocalError: gs" ∧
    pfas_start_iterate [lvlId, lvlId] echoSolver [0] (1 / 10 ^ 8)
        (U0Input.str "gs") = .error "TypeError" := by
  constructor
  · have hres : pfas_resolve_u0 [lvlId, lvlId] echoSolver [1] (1 / 10 ^ 8)
        (U0Input.str "gs") = .err "UnboundLocalError: gs" := by
      norm_num [pfas_resolve_u0, infNorm]
      decide
    rw [pfas_start_iterate, hres]
  · have hres : pfas_resolve_u0 [lvlId, lvlId] echoSolver [0] (1 / 10 ^ 8)
        (U0Input.str "gs") = .strLeft "gs" := by
      norm_num [pfas_resolve_u0, infNorm]
      decide
    rw [pfas_start_iterate, hres]

/-- State of the projected-cycling outer loop of `linear_pfas_solver.solve`
when it terminates: iterate, residual history, iterations run, the last
two active sets, and whether the loop left through the early `break`. -/
structure PfasCycleResult where
  u : Vec
  residuals : List ℚ
  z : ℕ
  activeOld : List ℕ
  activeNew : List ℕ
  brokeEarly : Bool
deriving Repr, DecidableEq

/-- The projected-cycling outer loop of `linear_pfas_solver.solve` under the
default acceleration policy (`accel` is not `'rsp'`; multigrid.py lines
428-472, default branch at 465-472).  Each iteration runs one projected
cycle from the finest level, recomputes residual, merit norm and active set,
and then executes the source's early exit: `break` exactly when `z != 0 and
active_set_new == active_set_old`.  The convergence factor computed at line
447 feeds only the printed diagnostic inside this branch, not the control
flow, and is therefore not part of the state.  The loop guard is the same
`residuals[-1] / np.linalg.norm(b) > tol` comparison as `mgGuard`.  The
fuel equals `maxiters`. -/
def pfasCyclingGo (levels : List Level) (sm : Smoother)
    (coarse_mx coarseFuel : ℕ) (b : Vec) (cycle : String) (tol : ℚ)
    (maxiters si : ℕ) :
    ℕ → Vec → List ℚ → List ℕ → List ℕ → ℕ → PfasCycleResult
  | 0, u, res, aOld, aNew, z => ⟨u, res, z, aOld, aNew, false⟩
  | fuel + 1, u, res, aOld, aNew, z =>
    if mgGuard (norm2sq b) (res.getLastD 0) (tol ^ 2 * norm2sq b)
        && decide (z < maxiters) then
      let u' := pfas_lvl_solve levels sm coarse_mx coarseFuel levels.length 0 u b cycle si
      let z' := z + 1
      let r := vecSub b (matVec (levels.headD default).A u')
      let res' := res ++ [infNorm (compute_Fomega u' r)]
      let aOld' := aNew
      let aNew' := active_set u' r
      if decide (z' ≠ 0) && decide (aNew' = aOld') then
        ⟨u', res', z', aOld', aNew', true⟩
      else
        pfasCyclingGo levels sm coarse_mx coarseFuel b cycle tol maxiters si
          fuel u' res' aOld' aNew' z'
    else ⟨u, res, z, aOld, aNew, false⟩

/-- Entry to the projected-cycling loop (multigrid.py lines 407-427): clamp
the resolved initial guess, record the initial merit norm and active set
(`active_set_new = active_set_old` initially), start at `z = 0`. -/
def pfas_cycling (levels : List Level) (sm : Smoother)
    (coarse_mx coarseFuel : ℕ) (b : Vec) (cycle : String) (tol : ℚ)
    (maxiters si : ℕ) (u0 : Vec) : PfasCycleResult :=
  let u := clampNeg u0
  let r := vecSub b (matVec (levels.headD default).A u)
  let res0 := infNorm (compute_Fomega u r)
  let a0 := active_set u r
  pfasCyclingGo levels sm coarse_mx coarseFuel b cycle tol maxiters si
    maxiters u [res0] a0 a0 0

/-- Helper invariant for the loop: started in a state whose last two active
sets are not flagged equal (either no iteration has happened, `z = 0`, or
the previous break test just failed), the loop breaks early exactly when its
final state has `z ≠ 0` and equal consecutive active sets. -/
theorem pfasCyclingGo_broke_iff (levels : List Level) (sm : Smoother)
    (coarse_mx coarseFuel : ℕ) (b : Vec) (cycle : String) (tol : ℚ)
    (maxiters si : ℕ) :
    ∀ (fuel : ℕ) (u : Vec) (res : List ℚ) (aOld aNew : List ℕ) (z : ℕ),
      (z = 0 ∨ aNew ≠ aOld) →
      ((pfasCyclingGo levels sm coarse_mx coarseFuel b cycle tol maxiters si
          fuel u res aOld aNew z).brokeEarly = true ↔
        ((pfasCyclingGo levels sm coarse_mx coarseFuel b cycle tol maxiters si
            fuel u res aOld aNew z).z ≠ 0 ∧
         (pfasCyclingGo levels sm coarse_mx coarseFuel b cycle tol maxiters si
            fuel u res aOld aNew z).activeNew =
         (pfasCyclingGo levels sm coarse_mx coarseFuel b cycle tol maxiters si
            fuel u res aOld aNew z).activeOld)) := by
  intro fuel
  induction fuel with
  | zero =>
    intro u res aOld aNew z hinv
    simp only [pfasCyclingGo]
    constructor
    · intro h; simp at h
    · rintro ⟨hz, ha⟩
      rcases hinv with h | h
      · exact absurd h hz
      · exact absurd ha h
  | succ fuel ih =>
    intro u res aOld aNew z hinv
    rw [pfasCyclingGo]
    split
    · dsimp only
      split
      · rename_i hbrk
        simp only [Bool.and_eq_true, decide_eq_true_eq] at hbrk
        simp only []
        constructor
        · intro _; exact ⟨hbrk.1, hbrk.2⟩
        · intro _; trivial
      · rename_i hbrk
        simp only [Bool.and_eq_true, decide_eq_true_eq, not_and] at hbrk
        refine ih _ _ _ _ _ (Or.inr ?_)
        intro hEq
        exact hbrk (Nat.succ_ne_zero z) hEq
    · simp only []
      constructor
      · intro h; simp at h
      · rintro ⟨hz, ha⟩
        rcases hinv with h | h
        · exact absurd h hz
        · exact absurd ha h

/-- Claim C2 (amended): under the default acceleration policy the loop exits
early exactly when, after an iteration (so `z ≠ 0`), the newly computed
active set equals the previous iteration's (exact set equality, here
equality of the canonical index lists).  The estimated-convergence-factor
test against `0.75` only chooses the diagnostic message printed at the exit
and is not an exit condition. -/
theorem pfas_default_exit_iff_active_set_repeat (levels : List Level)
    (sm : Smoother) (coarse_mx coarseFuel : ℕ) (b : Vec) (cycle : String)
    (tol : ℚ) (maxiters si : ℕ) (u0 : Vec) :
    ((pfas_cycling levels sm coarse_mx coarseFuel b cycle tol maxiters si
        u0).brokeEarly = true) ↔
      ((pfas_cycling levels sm coarse_mx coarseFuel b cycle tol maxiters si
          u0).z ≠ 0 ∧
       (pfas_cycling levels sm coarse_mx coarseFuel b cycle tol maxiters si
          u0).activeNew =
       (pfas_cycling levels sm coarse_mx coarseFuel b cycle tol maxiters si
          u0).activeOld) := by
  exact pfasCyclingGo_broke_iff levels sm coarse_mx coarseFuel b cycle tol
    maxiters si maxiters _ _ _ _ 0 (Or.inl rfl)

/-- A concrete 2-unknown level whose operator and transfers are the 2×2
identity. -/
def lvlI2 : Level := ⟨0, 0, [[1, 0], [0, 1]], [[1, 0], [0, 1]], [[1, 0], [0, 1]], []⟩

/-- A concrete smoother that returns the zero vector of length 2. -/
def smZero2 : Smoother := fun _ _ _ => [0, 0]

/-- Counterexample for C2: on the hierarchy `[lvlI2, lvlI2]` with right-hand
side `b = [3, -1]`, initial iterate `[3, 0]` and the smoother `smZero2`,
after the first outer iteration the residual history is `[1, 1]`, so the
estimated geometric convergence factor `(res_k / res_0)^(1/k)` equals
`1 > 0.75` — stated below in the equivalent power form
`res_k / res_0 > (3/4)^k` — and the active set changed from `[]` to `[0]`;
yet the loop does not exit early after that iteration (`brokeEarly = false`
when `maxiters = 1` stops it there), and with `maxiters = 5` it runs a
second iteration, exiting only when the active set repeats (`z = 2`).
The claim that the convergence-factor condition alone suffices to leave the
cycling state is therefore false on the code. -/
theorem pfas_default_no_exit_on_divergence :
    (pfas_cycling [lvlI2, lvlI2] smZero2 0 3 [3, -1] "V" (1 / 10 ^ 8) 1 1
        [3, 0]).brokeEarly = false ∧
    (pfas_cycling [lvlI2, lvlI2] smZero2 0 3 [3, -1] "V" (1 / 10 ^ 8) 1 1
        [3, 0]).activeNew ≠
      (pfas_cycling [lvlI2, lvlI2] smZero2 0 3 [3, -1] "V" (1 / 10 ^ 8) 1 1
        [3, 0]).activeOld ∧
    (pfas_cycling [lvlI2, lvlI2] smZero2 0 3 [3, -1] "V" (1 / 10 ^ 8) 1 1
        [3, 0]).residuals.getLastD 0 /
      (pfas_cycling [lvlI2, lvlI2] smZero2 0 3 [3, -1] "V" (1 / 10 ^ 8) 1 1
        [3, 0]).residuals.headD 0 >
      (3 / 4) ^
        ((pfas_cycling [lvlI2, lvlI2] smZero2 0 3 [3, -1] "V" (1 / 10 ^ 8) 1 1
          [3, 0]).residuals.length - 1) ∧
    (pfas_cycling [lvlI2, lvlI2] smZero2 0 3 [3, -1] "V" (1 / 10 ^ 8) 5 1
        [3, 0]).z = 2 ∧
    (pfas_cycling [lvlI2, lvlI2] smZero2 0 3 [3, -1] "V" (1 / 10 ^ 8) 5 1
        [3, 0]).brokeEarly = true := by
  refine ⟨?_, ?_, ?_, ?_, ?_⟩ <;>
    norm_num [pfas_cycling, pfasCyclingGo, mgGuard, pfas_lvl_solve,
      coarseSmoothLoop, iterSmooth, active_set, compute_Fomega, clampNeg,
      infNorm, norm2sq, zerosLike, vecSub, vecAdd, matVec, dot, lvlI2,
      smZero2, numEps, List.getLastD, List.headD, List.getD,
      List.range_succ, List.range_zero, List.filter_cons, List.filter_nil,
      List.filter_append]

/-- Mutable state of the frozen-linear-correction phase of
`linear_pfas_solver.solve` (multigrid.py lines 474-508): the iterate, the
working right-hand side `b`, the saved copy `b1`, the saved operator list
`Alist`, the current per-level operators `levels[i].A` (`As`), the residual
history, the current active set, the outer iteration counter `z` and the
`gmg_called` flag. -/
structure PhaseState where
  u : Vec
  b : Vec
  b1 : Vec
  Alist : List Mat
  As : List Mat
  residuals : List ℚ
  activeNew : List ℕ
  z : ℕ
  gmgCalled : Bool
deriving Repr, DecidableEq

/-- Fixed data of the frozen-linear-correction phase: the hierarchy, the
external relaxation `gs` (from `obstacle/multigrid/GS.py`, imported at line
475; only its call shape matters here, so it is a parameter), the external
direct solver `scipy.sparse.linalg.spsolve`, and the solve parameters. -/
structure PhaseCtx where
  levels : List Level
  gsFn : Smoother
  spsolveFn : Mat → Vec → Vec
  cycle : String
  tol : ℚ
  maxiters : ℕ
  si : ℕ

/-- The per-level operator rewrite of the phase (multigrid.py lines
490-495): for each level, first restore `levels[i].A = Alist[i]`, then
replace it by `I_elim·(A·I_elim) + I_add` where
`I_elim = -diags(active_set_vec - 1) = diags(1 - active_set_vec)` and
`I_add = diags(active_set_vec)`, restricting the indicator by `R` before
descending to the next level. -/
def constrainLevels : List (Mat × Mat) → Vec → List Mat
  | [], _ => []
  | (A, R) :: rest, asv =>
    let Ielim := diagMat (asv.map (fun t => 1 - t))
    let Iadd := diagMat asv
    let Ac := matAdd (matMul Ielim (matMul A Ielim)) Iadd
    Ac :: constrainLevels rest (matVec R asv)

/-- One pass of the frozen-linear-correction loop body (multigrid.py lines
477-508), returning the new state and whether the `break` at line 507-508
fires (`len(gmg_solver.residuals) == 1`, i.e. the inner linear solve ran no
iterations). -/
def phaseStep (ctx : PhaseCtx) (s : PhaseState) : PhaseState × Bool :=
  -- lines 477-478: after the first pass, recompute the active set from
  -- (u, b1) — the source passes the saved right-hand side b1 as the
  -- residual argument of active_set
  let asNew := if s.gmgCalled then active_set s.u s.b1 else s.activeNew
  -- lines 479-483: on the first pass only, save b and copy every level's A
  let b1 := if s.gmgCalled then s.b1 else s.b
  let Alist := if s.gmgCalled then s.Alist else s.As
  -- lines 485-488: b[active_set_new] = 0; active_set_vec[active_set_new] = 1
  let n := ((ctx.levels.headD default).mx + 2) * ((ctx.levels.headD default).my + 2)
  let b' := zeroAtIndices s.b asNew
  let asv := indicatorVec n asNew
  -- lines 490-495: constrained operators on every level
  let As' := constrainLevels (Alist.zip (ctx.levels.map (fun l => l.R))) asv
  -- lines 496-499: gmg_solver = multigrid_solver(levels, ..., gs, spsolve);
  -- u = gmg_solver.solve(b, u0=u, tol=tol/normb*residuals[0], cycle, si);
  -- maxiters is left at its default 50.  The squared effective guard of
  -- mgSolveCore is (tol/normb*res0)^2 * normb^2 = tol^2 * res0^2
  let levels' := List.zipWith (fun (l : Level) (A : Mat) => { l with A := A })
    ctx.levels As'
  let gmg := mgSolveCore levels' ctx.gsFn ctx.spsolveFn b' (some s.u) ctx.cycle
    (ctx.tol ^ 2 * (s.residuals.headD 0) ^ 2) 50 ctx.si
  -- line 500: u[u < 0] = 0; line 501: b = b1.copy()
  let u' := clampNeg gmg.u
  -- line 502: append ‖Fomega(u, b - Alist[0]·u)‖∞  (b is b1 by now)
  let res' := s.residuals ++
    [infNorm (compute_Fomega u' (vecSub b1 (matVec (Alist.headD []) u')))]
  -- lines 503-504: restore levels[i].A = Alist[i] on every level
  (⟨u', b1, b1, Alist, Alist, res', asNew, s.z + 1, true⟩,
    decide (gmg.residuals.length = 1))

/-- The loop guard of the phase (multigrid.py line 476):
`residuals[-1] / residuals[0] > tol and z < maxiters`; both residuals are
infinity norms, hence rational, and the `residuals[0] = 0` case follows the
same IEEE division-by-zero convention as `mgGuard`. -/
def phaseGuard (tol : ℚ) (maxiters : ℕ) (s : PhaseState) : Bool :=
  (if s.residuals.headD 0 = 0 then decide (0 < s.residuals.getLastD 0)
   else decide (tol < s.residuals.getLastD 0 / s.residuals.headD 0)) &&
  decide (s.z < maxiters)

/-- The frozen-linear-correction loop (multigrid.py lines 476-508): while
the guard holds run one pass, leaving early when the pass's break fires.
The fuel bounds the passes; the source loop increments `z` each pass, so
`maxiters` passes is an upper bound. -/
def phaseRun (ctx : PhaseCtx) : ℕ → PhaseState → PhaseState
  | 0, s => s
  | fuel + 1, s =>
    if phaseGuard ctx.tol ctx.maxiters s then
      let sb := phaseStep ctx s
      if sb.2 then sb.1 else phaseRun ctx fuel sb.1
    else s

/-- Entry to the frozen-linear-correction phase: `gmg_called = False`
(line 474), current operators read off the hierarchy, and the iterate,
right-hand side, residual history, active set and counter carried over from
the projected-cycling phase. -/
def linear_correction_phase (ctx : PhaseCtx) (u b : Vec)
    (residuals : List ℚ) (activeNew : List ℕ) (z : ℕ) : PhaseState :=
  phaseRun ctx ctx.maxiters
    ⟨u, b, [], [], ctx.levels.map (fun l => l.A), residuals, activeNew, z, false⟩

/-- A pass restores the operators: after `phaseStep` the current operators
equal the saved ones, which are the entry operators (first pass) or the
previously saved ones. -/
theorem phaseStep_As (ctx : PhaseCtx) (s : PhaseState) :
    (phaseStep ctx s).1.As = (if s.gmgCalled then s.Alist else s.As) ∧
    (phaseStep ctx s).1.Alist = (if s.gmgCalled then s.Alist else s.As) ∧
    (phaseStep ctx s).1.gmgCalled = true :=
  ⟨rfl, rfl, rfl⟩

/-- Once `gmg_called` holds and the operators already equal the saved list,
any number of further passes leaves the operators unchanged. -/
theorem phaseRun_As_called (ctx : PhaseCtx) :
    ∀ (fuel : ℕ) (s : PhaseState), s.gmgCalled = true → s.As = s.Alist →
      (phaseRun ctx fuel s).As = s.As := by
  intro fuel
  induction fuel with
  | zero => intro s _ _; rfl
  | succ fuel ih =>
    intro s hg hAs
    rw [phaseRun]
    split
    · dsimp only
      split
      · rw [(phaseStep_As ctx s).1, if_pos hg, hAs]
      · rw [ih (phaseStep ctx s).1 (phaseStep_As ctx s).2.2
          (by rw [(phaseStep_As ctx s).1, (phaseStep_As ctx s).2.1]),
          (phaseStep_As ctx s).1, if_pos hg, hAs]
    · rfl

/-- Claim C1: whenever the frozen-linear-correction phase returns — through
the guard, through `maxiters`, or through the early `break` — every level's
operator `A` equals the operator it had before the phase began.  (Each pass
saves the operators on first entry, rewrites them, and restores them at
lines 503-504 before the break test, so every exit path leaves them
restored.) -/
theorem linear_correction_restores_operators (ctx : PhaseCtx) (u b : Vec)
    (residuals : List ℚ) (activeNew : List ℕ) (z : ℕ) :
    (linear_correction_phase ctx u b residuals activeNew z).As =
      ctx.levels.map (fun l => l.A) := by
  rw [linear_correction_phase]
  generalize hs : (⟨u, b, [], [], ctx.levels.map (fun l => l.A), residuals,
    activeNew, z, false⟩ : PhaseState) = s
  have hg : s.gmgCalled = false := by rw [← hs]
  have hAs : s.As = ctx.levels.map (fun l => l.A) := by rw [← hs]
  clear hs
  generalize ctx.maxiters = fuel
  induction fuel with
  | zero => exact hAs
  | succ fuel _ =>
    rw [phaseRun]
    split
    · dsimp only
      split
      · rw [(phaseStep_As ctx s).1, if_neg (by rw [hg]; exact Bool.false_ne_true), hAs]
      · rw [phaseRun_As_called ctx fuel (phaseStep ctx s).1 (phaseStep_As ctx s).2.2
          (by rw [(phaseStep_As ctx s).1, (phaseStep_As ctx s).2.1]),
          (phaseStep_As ctx s).1, if_neg (by rw [hg]; exact Bool.false_ne_true), hAs]
    · exact hAs

/-- Reading an entry of `zeroAtIndices`: zero on the listed indices, the
original entry elsewhere (for in-range indices). -/
theorem zeroAtIndices_getD (v : Vec) (idxs : List ℕ) (i : ℕ)
    (hi : i < v.length) :
    (zeroAtIndices v idxs).getD i 0 = if i ∈ idxs then 0 else v.getD i 0 := by
  have hlen : (zeroAtIndices v idxs).length = v.length := by
    simp [zeroAtIndices]
  have hi2 : i < (zeroAtIndices v idxs).length := by rw [hlen]; exact hi
  rw [List.getD_eq_getElem _ _ hi2, List.getD_eq_getElem _ _ hi]
  simp [zeroAtIndices]

/-- Object-identity model of the right-hand-side array during the
frozen-linear-correction phase (multigrid.py lines 476-501).  The caller's
array is the distinguished heap cell `caller`; the local name `b` either
still aliases it (`bAliasesCaller`) — as it does when `solve` begins — or is
bound to a separate array with contents `bOwn`; `b1` holds the contents of
the saved copy.  The per-pass data is the active-set index list used in the
in-place write `b[active_set_new] = 0.`. -/
structure BAlias where
  caller : Vec
  bAliasesCaller : Bool
  bOwn : Vec
  b1 : Vec
deriving Repr, DecidableEq

/-- Contents of the array the name `b` is currently bound to. -/
def bAliasRead (s : BAlias) : Vec :=
  if s.bAliasesCaller then s.caller else s.bOwn

/-- One pass of the phase, restricted to its effect on the `b` arrays:
on the first pass `b1 = b.copy()` (line 480); then the in-place write
`b[active_set_new] = 0.` (line 487) mutates whichever array `b` is bound
to — the caller's own array on the first pass; finally `b = b1.copy()`
(line 501) rebinds the local name to a fresh copy, so the caller's array is
never written again, but the zeros written on the first pass stay in it. -/
def bAliasPass (first : Bool) (active : List ℕ) (s : BAlias) : BAlias :=
  let s1 := if first then { s with b1 := bAliasRead s } else s
  let s2 := if s1.bAliasesCaller
    then { s1 with caller := zeroAtIndices s1.caller active }
    else { s1 with bOwn := zeroAtIndices s1.bOwn active }
  { s2 with bAliasesCaller := false, bOwn := s2.b1 }

/-- Run the phase's passes over their active-set lists. -/
def bAliasRunGo : List (List ℕ) → Bool → BAlias → BAlias
  | [], _, s => s
  | a :: rest, first, s => bAliasRunGo rest false (bAliasPass first a s)

/-- The phase entered with the caller's array still aliased by `b`. -/
def bAliasRun (passes : List (List ℕ)) (orig : Vec) : BAlias :=
  bAliasRunGo passes true ⟨orig, true, [], []⟩

/-- Once `b` no longer aliases the caller's array, no later pass touches it. -/
theorem bAliasRunGo_caller_frozen :
    ∀ (passes : List (List ℕ)) (first : Bool) (s : BAlias),
      s.bAliasesCaller = false → (bAliasRunGo passes first s).caller = s.caller := by
  intro passes
  induction passes with
  | nil => intro first s _; rfl
  | cons a rest ih =>
    intro first s hs
    rw [bAliasRunGo]
    rw [ih false (bAliasPass first a s) rfl]
    rw [bAliasPass]
    split <;> · dsimp only; rw [if_neg (by simp [hs])]
  -- each branch: the alias test takes the `bOwn` branch, leaving `caller`

/-- Claim C10: whenever the frozen-linear-correction phase executes at least
one pass, the first pass writes zeros in place into the caller-supplied
right-hand-side array at the active-set indices; the `b = b1.copy()`
rebinding means no later pass writes to that array, so after `solve`
returns the caller's array object is the original with exactly those
entries zeroed. -/
theorem phase_zeroes_caller_rhs (orig : Vec) (a : List ℕ)
    (rest : List (List ℕ)) :
    (bAliasRun (a :: rest) orig).caller = zeroAtIndices orig a ∧
    ∀ i ∈ a, i < orig.length → (bAliasRun (a :: rest) orig).caller.getD i 0 = 0 := by
  have hmain : (bAliasRun (a :: rest) orig).caller = zeroAtIndices orig a := by
    rw [bAliasRun, bAliasRunGo, bAliasRunGo_caller_frozen rest false _ rfl]
    rfl
  refine ⟨hmain, ?_⟩
  intro i hi hlen
  rw [hmain, zeroAtIndices_getD orig a i hlen, if_pos hi]

/-- Witness for C10: two passes on the caller array `[5, 6]`, the first
zeroing index `0`, the second (on the rebound copy) index `1`: the caller's
array ends as `zeroAtIndices [5, 6] [0]`, with entry `0` zeroed. -/
theorem phase_zeroes_caller_rhs_witness :
    ((0 : ℕ) ∈ [0] ∧ 0 < [(5:ℚ), 6].length) ∧
      (bAliasRun [[0], [1]] [5, 6]).caller = zeroAtIndices [5, 6] [0] ∧
      (bAliasRun [[0], [1]] [(5:ℚ), 6]).caller.getD 0 0 = 0 :=
  ⟨⟨by decide, by decide⟩,
    (phase_zeroes_caller_rhs [5, 6] [0] [[1]]).1,
    (phase_zeroes_caller_rhs [5, 6] [0] [[1]]).2 0 (by decide) (by decide)⟩
